import Mathlib

/-!
Shallow embedding of the `readpub` book manager
(`src/bookmanager/book.py`, `src/bookmanager/core.py`).

Conventions of the embedding:
* Python byte strings and text are modelled as `String`.
* Zip archives, directory listings and dicts are association lists
  (`List (String × _)`) in iteration/insertion order; Python's
  `dict[k] = v` is `aset` (overwrite in place, append if new).
* Python exceptions are `Except` errors; code that mutates state and then
  raises returns the mutated state next to the `Except` value.
* XML documents parsed by BeautifulSoup are represented by their parsed
  shape (`Opf`); decodable images are represented by their pixel size.
-/

namespace ReadPub

/-- Python exceptions raised (directly or by libraries) in the code paths
modelled here.  Each constructor corresponds to one exception class. -/
inductive PyErr
  | fileNotFound
  | fileExists
  | keyError
  | attrError
  | badZip
  | unidentifiedImage
  | zeroDivision
  | typeError
  | notImplemented (msg : String)
  | runtimeError (msg : String)
  deriving DecidableEq, Repr

/-- The `RuntimeError`s raised by `Book`'s open/page state machine,
one constructor per raise site in `book.py`. -/
inductive BookErr
  | anotherBookOpen (this other : String)
  | alreadyOpen (this : String)
  | notLoaded
  | notOpen
  | alreadyLoaded
  deriving DecidableEq, Repr

/-- Association-list lookup: first entry whose key matches, as Python's
`dict[k]` / `k in d` on insertion-ordered dicts. -/
def alook : List (String × α) → String → Option α
  | [], _ => none
  | x :: xs, k => if x.1 = k then some x.2 else alook xs k

/-- Python `d[k] = v`: overwrite in place if the key exists, else append.
(The lists modelling dicts never carry a key twice, exactly like Python
dicts, so replacing the first occurrence is the same as replacing all.) -/
def aset : List (String × α) → String → α → List (String × α)
  | [], k, v => [(k, v)]
  | x :: xs, k, v => if x.1 = k then (k, v) :: xs else x :: aset xs k v

/-- Python `"".join(s.rpartition(sep)[:-1])` for `sep = "/"`: the prefix of
`s` up to and including the last slash, `""` when there is none. -/
def upToLastSlash (s : String) : String :=
  String.mk (s.toList.reverse.dropWhile (fun c => c ≠ '/')).reverse

/-- Python `s.rpartition("/")[-1]`: the part of `s` after the last slash
(`s` itself when there is none). -/
def afterLastSlash (s : String) : String :=
  String.mk (s.toList.reverse.takeWhile (fun c => c ≠ '/')).reverse

/-- Python `pathlib.Path(s).parent.as_posix()` for relative posix strings
(as appearing inside zip archives): strip one trailing slash, then drop the
last path component; `"."` when no directory part remains. -/
def pathParentS (s : String) : String :=
  let t := if s.toList.getLast? = some '/' then s.toList.dropLast else s.toList
  match t.reverse.dropWhile (fun c => c ≠ '/') with
  | [] => "."
  | _ :: rest => String.mk rest.reverse

/-- Loop body of `_merge_dir` (book.py:284-288), recursing on the character
list of `to`: while `to` starts with `"../"`, replace `fromdir` by its
parent (with `"."` normalised to `""`); finally concatenate. -/
def mergeDirL (fromdir : String) : List Char → String
  | '.' :: '.' :: '/' :: rest =>
      mergeDirL (if pathParentS fromdir = "." then "" else pathParentS fromdir) rest
  | rest => fromdir ++ String.mk rest

/-- Model of `_merge_dir(fromdir, to)` from book.py:284-288. -/
def mergeDir (fromdir rel : String) : String :=
  mergeDirL fromdir rel.toList

/-- Whether a string starts with `"../"` (Python `to.startswith("../")`). -/
def startsWithDotDot (s : String) : Bool :=
  match s.toList with
  | '.' :: '.' :: '/' :: _ => true
  | _ => false

/-- Modelled from the spec: href resolution against the package document's
containing directory, "handling `../` segments by stepping up one directory
per occurrence".  Directories are posix prefixes that are empty or end in a
slash, so stepping up keeps the trailing slash and joining is plain
concatenation.  Used only to compare the spec's resolution with
`mergeDir`. -/
def specResolveL (fromdir : String) : List Char → String
  | '.' :: '.' :: '/' :: rest =>
      specResolveL (upToLastSlash (String.mk fromdir.toList.dropLast)) rest
  | rest => fromdir ++ String.mk rest

/-- Modelled from the spec: see `specResolveL`. -/
def specResolve (fromdir rel : String) : String :=
  specResolveL fromdir rel.toList

/-- Python `pathlib.Path(name).suffix` for plain file names: the final
dot-extension including the dot, `""` when there is no dot or the only dot
is the leading character. -/
def extOf (s : String) : String :=
  let l := s.toList
  let post := l.reverse.takeWhile (fun c => c ≠ '.')
  if post.length + 1 < l.length then String.mk ('.' :: post.reverse) else ""

/-- Python `pathlib.Path(name).stem`: the name without `extOf`. -/
def stemOf (s : String) : String :=
  String.mk (s.toList.take (s.toList.length - (extOf s).toList.length))

/-- Values stored in a metadata dict (`MetaData` in `_typing.py`): strings,
or the `progress` pair.  The floats occurring in the code (`0.0`, `1.0`)
are exact integers, so the pair is modelled over `Int`. -/
inductive MVal
  | str (v : String)
  | pair (a b : Int)
  deriving DecidableEq, Repr

/-- A Python dict of metadata, in insertion order. -/
abbrev Dict := List (String × MVal)

/-- Python `d[k]` as an `Option`. -/
def dictGet (d : Dict) (k : String) : Option MVal :=
  alook d k

/-- Python `d | e` / `d.update(e)`: right-biased merge keeping `d`'s key
positions and appending `e`'s new keys in `e`'s order. -/
def dictUnion (d e : Dict) : Dict :=
  d.map (fun kv =>
    match alook e kv.1 with
    | some v => (kv.1, v)
    | none => kv)
  ++ e.filter (fun kv => (alook d kv.1).isNone)

/-- The parsed shape of an OPF package document, as the code accesses it
through BeautifulSoup (`bs.creator`, `bs.find("meta", name="cover")`,
`bs.find(id=...)`, `manifest.find(id=...)`, `bs.spine`):
`dcTitle` is the Dublin-Core title text (never read by the code),
`creator` the Dublin-Core creator text (`none` = element absent),
`coverMeta` the `content` attribute of `<meta name="cover">`,
`items` maps element ids to `href` attributes (manifest items),
`spine` lists the `<itemref>` `idref`s in document order. -/
structure Opf where
  dcTitle : Option String
  creator : Option String
  coverMeta : Option String
  items : List (String × String)
  spine : List String
  deriving DecidableEq, Repr

/-- A zip archive member, viewed as its byte content tagged with what those
bytes parse as: plain bytes, an OPF XML document, or a decodable image of
pixel size `w×h`. -/
inductive ZEntry
  | bytes (b : String)
  | opfXml (d : Opf)
  | img (w h : Nat)
  deriving DecidableEq, Repr

/-- A zip archive: members in `namelist()` order. -/
abbrev Zip := List (String × ZEntry)

/-- Python `name in z.namelist()` plus `z.read(name)` combined. -/
def zRead (z : Zip) (n : String) : Option ZEntry :=
  alook z n

/-- Python `s.endswith(post)`. -/
def strEndsWith (s post : String) : Bool :=
  post.toList.isSuffixOf s.toList

/-- Model of `_find_opf` (book.py:217-221): first member name ending in `.opf`,
`""` when there is none. -/
def findOpf (z : Zip) : String :=
  match z.find? (fun e => strEndsWith e.1 ".opf") with
  | some e => e.1
  | none => ""

/-- The item stored for one idref by `_get_opf_items`:
`z.read(itemdir) if itemdir in namelist else b""`. -/
def resolveEntry (z : Zip) (maindir href : String) : ZEntry :=
  match zRead z (mergeDir maindir href) with
  | some e => e
  | none => .bytes ""

/-- The `for i in idrefs` loop of `_get_opf_items` (book.py:230-233):
`manifest.find(id=i)` returning `None` raises `AttributeError`; otherwise
`items[i] = ...` is an insertion-ordered dict assignment. -/
def opfItemsLoop (z : Zip) (maindir : String) (d : Opf) :
    List String → List (String × ZEntry) → Except PyErr (List (String × ZEntry))
  | [], acc => .ok acc
  | i :: rest, acc =>
    match alook d.items i with
    | none => .error .attrError
    | some href => opfItemsLoop z maindir d rest (aset acc i (resolveEntry z maindir href))

/-- Model of `_get_opf_items` (book.py:224-235).  Reading a member that is not an
OPF document gives soup without a `<spine>`, so `bs.spine.find_all` raises
`AttributeError`; a missing member name raises `KeyError` (unreachable from
`_read_epub`, which passes a name produced by `_find_opf`). -/
def getOpfItems (z : Zip) (opfHref : String) : Except PyErr (List (String × ZEntry)) :=
  let maindir := upToLastSlash opfHref
  match zRead z opfHref with
  | some (.opfXml d) => opfItemsLoop z maindir d d.spine []
  | some _ => .error .attrError
  | none => .error .keyError

/-- Model of `_get_opf_info` (book.py:238-244): author from the Dublin-Core creator
(`"Unknown"` when its text is empty, `AttributeError` when the element —
or any other looked-up element — is absent), and the cover href resolved
through `_merge_dir`. -/
def getOpfInfo (z : Zip) (opfHref : String) : Except PyErr (String × String) :=
  let maindir := upToLastSlash opfHref
  match zRead z opfHref with
  | some (.opfXml d) =>
    match d.creator with
    | none => .error .attrError
    | some a =>
      let author := if a = "" then "Unknown" else a
      match d.coverMeta with
      | none => .error .attrError
      | some c =>
        match alook d.items c with
        | none => .error .attrError
        | some href => .ok (author, mergeDir maindir href)
  | some _ => .error .attrError
  | none => .error .keyError

/-- Model of `_image_auto_resize` (book.py:258-267).  Integer `/` is float division,
so a zero denominator raises `ZeroDivisionError`; either way
`image.resize((width, height), ...)` returns an image of exactly the
requested size (the crop box only selects source pixels).  The float
comparison `a/b > width/height` is modelled by the exact rational one. -/
def imageAutoResize (a b width height : Nat) : Except PyErr (Nat × Nat) :=
  if b = 0 then .error .zeroDivision
  else if a * height > width * b then .ok (width, height)
  else if width = 0 then .error .zeroDivision
  else .ok (width, height)

/-- A file inside a book's directory (or offered as an `add_book` source):
a zip archive, an image of pixel size `w×h`, a YAML file round-tripping a
metadata dict, or other raw bytes. -/
inductive DFile
  | zipArch (z : Zip)
  | img (w h : Nat)
  | yamlDict (d : Dict)
  | raw (b : String)
  deriving DecidableEq, Repr

/-- A directory listing, in `iterdir()` order. -/
abbrev DirFiles := List (String × DFile)

/-- Model of `_save_cover` (book.py:247-255) on the book directory `files` (the
parent of the epub at `dirpath`): read the cover bytes (`KeyError` if the
member is missing), unlink every file whose stem is `"cover"`, then decode
(`UnidentifiedImageError` on non-image bytes), resize to 248×360 and save
under the cover's own file name.  State reached before a raise is kept. -/
def saveCover (z : Zip) (coverHref dirpath : String) (files : DirFiles) :
    Except PyErr String × DirFiles :=
  match zRead z coverHref with
  | none => (.error .keyError, files)
  | some e =>
    let files1 := files.filter (fun f => stemOf f.1 ≠ "cover")
    let saveName := afterLastSlash coverHref
    match e with
    | .img w h =>
      match imageAutoResize w h 248 360 with
      | .error er => (.error er, files1)
      | .ok (rw, rh) =>
        (.ok (dirpath ++ "/" ++ saveName), aset files1 saveName (.img rw rh))
    | _ => (.error .unidentifiedImage, files1)

/-- Model of `_read_epub_metadata` (book.py:202-214) for the file `fileName` inside
the directory `files` at posix path `dirpath`: opening a non-zip raises
`BadZipFile`, a zip without `.opf` member raises
`NotImplementedError("unsupported epub format")`, otherwise the metadata
dict is built in the literal's key order. -/
def readEpubMetadataD (dirpath : String) (files : DirFiles) (fileName : String) :
    Except PyErr Dict × DirFiles :=
  match alook files fileName with
  | none => (.error .fileNotFound, files)
  | some (.zipArch z) =>
    let opfHref := findOpf z
    if opfHref = "" then (.error (.notImplemented "unsupported epub format"), files)
    else
      match getOpfInfo z opfHref with
      | .error e => (.error e, files)
      | .ok (author, coverHref) =>
        match saveCover z coverHref dirpath files with
        | (.error e, files') => (.error e, files')
        | (.ok coverPath, files') =>
          (.ok [("title", .str (stemOf fileName)), ("author", .str author),
                ("filepath", .str (dirpath ++ "/" ++ fileName)),
                ("coverpath", .str coverPath)], files')
  | some _ => (.error .badZip, files)

/-- Model of `_read_epub` (book.py:194-199): the full content read. -/
def readEpubFull (files : DirFiles) (fileName : String) :
    Except PyErr (List (String × ZEntry)) :=
  match alook files fileName with
  | none => .error .fileNotFound
  | some (.zipArch z) =>
    let opfHref := findOpf z
    if opfHref = "" then .error (.notImplemented "unsupported epub format")
    else getOpfItems z opfHref
  | some _ => .error .badZip

/-- The value produced by `read_ebook`: the full content map or the
metadata-only dict. -/
inductive RRes
  | content (items : List (String × ZEntry))
  | meta (d : Dict)
  deriving DecidableEq, Repr

/-- The directory scan of `read_ebook` (book.py:182-188): first immediate
child whose suffix is `.epub`. -/
def findEpubChild (files : DirFiles) : Option String :=
  (files.find? (fun f => extOf f.1 == ".epub")).map (·.1)

/-- The tail of `read_ebook` (book.py:189-191) once a file path is chosen:
the `match` statement has a single `.epub` case and no default, so any
other suffix makes the function return Python `None`, modelled as
`.ok none`. -/
def readEbookFile (dirpath : String) (files : DirFiles) (n : String) (onlyMeta : Bool) :
    Except PyErr (Option RRes) × DirFiles :=
  if extOf n = ".epub" then
    if onlyMeta then
      match readEpubMetadataD dirpath files n with
      | (.error e, files') => (.error e, files')
      | (.ok d, files') => (.ok (some (.meta d)), files')
    else
      match readEpubFull files n with
      | .error e => (.error e, files)
      | .ok items => (.ok (some (.content items)), files)
  else (.ok none, files)

/-- Model of `read_ebook` (book.py:159-191).  `target = none` means the path is the
directory itself (`path.is_dir()` true): its children are scanned for the
first `.epub` entry, raising `NotImplementedError("unsupported book
format")` when there is none.  `target = some n` means the path is the
file `n` inside `files`. -/
def readEbook (dirpath : String) (files : DirFiles) (target : Option String)
    (onlyMeta : Bool) : Except PyErr (Option RRes) × DirFiles :=
  match target with
  | none =>
    match findEpubChild files with
    | none => (.error (.notImplemented "unsupported book format"), files)
    | some n => readEbookFile dirpath files n onlyMeta
  | some n => readEbookFile dirpath files n onlyMeta

/-- The in-memory `Book` state relevant to the metadata/registry claims:
`cache` is `Book.__metadata`.  The content map and page cursor are covered
by the page state machine below (`PBook`). -/
structure BookRec where
  cache : Option Dict
  deriving DecidableEq, Repr

/-- The `BookManager` state relevant to the metadata/registry claims:
`fsBooks` is the on-disk `books/` tree (one listing per book directory),
`books` the in-memory registry, `username` the current identity, and
`clock` the string `str(datetime.datetime.now())` would produce at the
next call (ambient, constant across the calls studied). -/
structure Mgr where
  fsBooks : List (String × DirFiles)
  books : List (String × BookRec)
  username : String
  clock : String
  deriving DecidableEq, Repr

/-- Posix path of a book's directory.  The constant `datapath` prefix is
elided. -/
def bookDirPath (bid : String) : String :=
  "books/" ++ bid

/-- Replace book `bid`'s directory listing. -/
def setFs (m : Mgr) (bid : String) (files : DirFiles) : Mgr :=
  { m with fsBooks := aset m.fsBooks bid files }

/-- Model of `Book.get_metadata` (book.py:49-68) for the registry book `bid`:
return the cache if set; else deserialize and return `metadata.yml` if it
exists (without caching); else materialize through
`read_ebook(dirpath, only_metadata=True)`, merge in uploader, uploadtime,
status and progress, write the side file, cache, and return.  The state
(including directory mutations made by a failing read) is returned next to
the result. -/
def getMetadataM (m : Mgr) (bid : String) : Except PyErr Dict × Mgr :=
  match alook m.books bid with
  | none => (.error .keyError, m)
  | some r =>
    match r.cache with
    | some md => (.ok md, m)
    | none =>
      let files := (alook m.fsBooks bid).getD []
      match alook files "metadata.yml" with
      | some (.yamlDict d) => (.ok d, m)
      | some _ => (.error .typeError, m)
      | none =>
        match readEbook (bookDirPath bid) files none true with
        | (.error e, files') => (.error e, setFs m bid files')
        | (.ok none, files') => (.error .attrError, setFs m bid files')
        | (.ok (some (.content _)), files') => (.error .typeError, setFs m bid files')
        | (.ok (some (.meta md0)), files') =>
          let md := dictUnion md0
            [("uploader", .str m.username), ("uploadtime", .str m.clock),
             ("status", .str "normal"), ("progress", .pair 0 1)]
          let m1 := setFs m bid (aset files' "metadata.yml" (.yamlDict md))
          (.ok md, { m1 with books := aset m1.books bid ⟨some md⟩ })

/-- Model of `Book.update_metadata` (book.py:76-88): merge the keyword arguments
onto `get_metadata()`'s result and write the merge to `metadata.yml`.
The in-memory cache is left untouched. -/
def updateMetadataM (m : Mgr) (bid : String) (kwargs : Dict) : Except PyErr Unit × Mgr :=
  match getMetadataM m bid with
  | (.error e, m1) => (.error e, m1)
  | (.ok md, m1) =>
    let files := (alook m1.fsBooks bid).getD []
    (.ok (), setFs m1 bid (aset files "metadata.yml" (.yamlDict (dictUnion md kwargs))))

/-- Model of `BookManager.add_book` (core.py:80-108).  `src = none` models a
non-existent source path (`FileNotFoundError`); `newId` is the id returned
by `get_new_bookid()` (see `getNewBookid`); `dirpath.mkdir()` on an
existing directory raises `FileExistsError`; then the source is copied in,
the fresh `Book` inserted into the registry, and only then is
`get_metadata()` forced — a failure there propagates with the registry
entry and the copied file already in place. -/
def addBook (m : Mgr) (src : Option (String × DFile)) (newId : String) :
    Except PyErr Dict × Mgr :=
  match src with
  | none => (.error .fileNotFound, m)
  | some (srcName, content) =>
    if (alook m.fsBooks newId).isSome then (.error .fileExists, m)
    else
      let m1 := { m with fsBooks := aset m.fsBooks newId [(srcName, content)] }
      let m2 := { m1 with books := aset m1.books newId ⟨none⟩ }
      getMetadataM m2 newId

/-- Model of `BookManager.del_book_entirely` (core.py:136-150): `shutil.rmtree`
with `ignore_errors=True` (a missing directory is not an error), then
`del self.books[bookid]`, which raises `KeyError` when the id is not a
registry key — after the directory removal already happened. -/
def delBookEntirely (m : Mgr) (bid : String) : Except PyErr Unit × Mgr :=
  let m1 := { m with fsBooks := m.fsBooks.filter (fun kv => kv.1 ≠ bid) }
  if (alook m1.books bid).isSome then
    (.ok (), { m1 with books := m1.books.filter (fun kv => kv.1 ≠ bid) })
  else (.error .keyError, m1)

/-- The per-`Book` state of the open/page state machine: `pageNow` is
`Book.__page_now`, `loaded` is `bool(Book.__filedict)`. -/
structure PBook where
  pageNow : Int
  loaded : Bool
  deriving DecidableEq, Repr

/-- The manager state seen by the open/page state machine: the global
opened-book slot (`""` = none) and the registry's books. -/
structure PMgr where
  openedBook : String
  books : List (String × PBook)
  deriving DecidableEq, Repr

/-- Model of `Book.is_opened` (book.py:148-151). -/
def isOpened (b : PBook) : Bool :=
  b.pageNow > -1

/-- Replace book `bid`'s entry in the registry. -/
def updBook (m : PMgr) (bid : String) (b : PBook) : PMgr :=
  { m with books := m.books.map (fun kv => if kv.1 = bid then (bid, b) else kv) }

/-- Model of `Book.open` (book.py:106-117) called on the book `bid` whose state is
`b`, inside manager `m`: a non-empty opened-book slot raises
`AnotherBookOpen` when this book's cursor is `-1` and `AlreadyOpen`
otherwise; then an empty content map raises `NotLoaded`; on success only
the slot is written — the cursor is left untouched. -/
def openBookB (m : PMgr) (bid : String) (b : PBook) : Except BookErr PMgr :=
  if m.openedBook ≠ "" then
    if b.pageNow = -1 then .error (.anotherBookOpen bid m.openedBook)
    else .error (.alreadyOpen bid)
  else if b.loaded = false then .error .notLoaded
  else .ok { m with openedBook := bid }

/-- Model of `Book.turn_to_page` (book.py:127-131): raise `NotOpen` when the cursor
is negative, else set it to `n` unconditionally. -/
def turnToPage (b : PBook) (n : Int) : Except BookErr PBook :=
  if b.pageNow < 0 then .error .notOpen else .ok { b with pageNow := n }

/-- Model of `Book.next_page` (book.py:133-135). -/
def nextPage (b : PBook) : Except BookErr PBook :=
  turnToPage b (b.pageNow + 1)

/-- Model of `Book.prev_page` (book.py:137-139). -/
def prevPage (b : PBook) : Except BookErr PBook :=
  turnToPage b (b.pageNow - 1)

/-- One public operation on the open/page state, as a relation between
manager states.  `next_page`/`prev_page` are instances of `turnOk`.
Operations that raise leave the state unchanged and need no step;
metadata operations never touch these fields. -/
inductive PStep : PMgr → PMgr → Prop
  | loadOk (m : PMgr) (bid : String) (a : PBook) :
      alook m.books bid = some a → a.loaded = false →
      PStep m (updBook m bid { a with loaded := true })
  | releaseB (m : PMgr) (bid : String) (a : PBook) :
      alook m.books bid = some a →
      PStep m (updBook m bid { a with loaded := false })
  | openOk (m : PMgr) (bid : String) (a : PBook) (m' : PMgr) :
      alook m.books bid = some a → openBookB m bid a = .ok m' →
      PStep m m'
  | closeB (m : PMgr) (bid : String) (a : PBook) :
      alook m.books bid = some a →
      PStep m (updBook m bid { a with pageNow := -1 })
  | turnOk (m : PMgr) (bid : String) (a : PBook) (n : Int) (b' : PBook) :
      alook m.books bid = some a → turnToPage a n = .ok b' →
      PStep m (updBook m bid b')
  | addB (m : PMgr) (bid : String) :
      alook m.books bid = none →
      PStep m { m with books := m.books ++ [(bid, ⟨-1, false⟩)] }
  | delB (m : PMgr) (bid : String) :
      PStep m { m with books := m.books.filter (fun kv => kv.1 ≠ bid) }
  | rescan (m : PMgr) (ids : List String) :
      PStep m { m with books := ids.map (fun i => (i, ⟨-1, false⟩)) }

/-- States reachable through the public operations: a freshly constructed
manager (`find_books` makes every book with cursor `-1` and empty content
map, and the opened-book slot starts `""`), closed under `PStep`. -/
inductive PReachable : PMgr → Prop
  | init (ids : List String) :
      PReachable ⟨"", ids.map (fun i => (i, ⟨-1, false⟩))⟩
  | step {m m' : PMgr} : PReachable m → PStep m m' → PReachable m'

/-- The retry loop of `get_new_bookid`: try `draw start`, `draw (start+1)`,
…, `n` times, returning the first candidate not already a registry key. -/
def firstFresh (books : List String) (draw : Nat → String) : Nat → Nat → Option String
  | _, 0 => none
  | start, n + 1 =>
    if draw start ∈ books then firstFresh books draw (start + 1) n
    else some (draw start)

/-- Model of `BookManager.get_new_bookid` (core.py:152-184).  The two secret token
streams are inputs: `draw8 i` is the `secrets.token_hex(8)` drawn at
attempt `i` of the first loop, `draw16 i` the `secrets.token_hex(16)` of
the second.  The first loop runs `maxruns - maxruns / 2` times, the
fallback loop `maxruns / 2` times, and exhaustion raises the
`RuntimeError` of core.py:183. -/
def getNewBookid (books : List String) (draw8 draw16 : Nat → String) (maxruns : Nat) :
    Except PyErr String :=
  match firstFresh books draw8 0 (maxruns - maxruns / 2) with
  | some bid => .ok bid
  | none =>
    match firstFresh books draw16 0 (maxruns / 2) with
    | some bid => .ok bid
    | none => .error (.runtimeError
        ("can't find a legal book id after " ++ toString maxruns ++ " runs"))

/-- A package document declaring Dublin-Core title `"T"`, creator `"A"`
and a cover meta pointing at `cover.jpg`. -/
def opfC1 : Opf :=
  ⟨some "T", some "A", some "cov", [("cov", "cover.jpg"), ("ch1", "ch1.xhtml")], ["ch1"]⟩

/-- An EPUB archive around `opfC1` whose cover decodes as a 600×800 image. -/
def zC1 : Zip :=
  [("OEBPS/content.opf", .opfXml opfC1), ("OEBPS/cover.jpg", .img 600 800),
   ("OEBPS/ch1.xhtml", .bytes "one")]

/-- An empty library. -/
def mgrC1 : Mgr := ⟨[], [], "u", "t0"⟩

/-- The metadata record `add_book` returns for `zC1` added to `mgrC1` as
`book.epub` under id `id1`. -/
def mdC1 : Dict :=
  [("title", .str "book"), ("author", .str "A"),
   ("filepath", .str "books/id1/book.epub"), ("coverpath", .str "books/id1/cover.jpg"),
   ("uploader", .str "u"), ("uploadtime", .str "t0"),
   ("status", .str "normal"), ("progress", .pair 0 1)]

/-- The metadata record `add_book`/`get_metadata` materializes for `zC1`
copied as `book.epub` under id `b1`. -/
def mdC2 : Dict :=
  [("title", .str "book"), ("author", .str "A"),
   ("filepath", .str "books/b1/book.epub"), ("coverpath", .str "books/b1/cover.jpg"),
   ("uploader", .str "u"), ("uploadtime", .str "t0"),
   ("status", .str "normal"), ("progress", .pair 0 1)]

/-- A library holding one registered book `b1` backed by `zC1`, with no
metadata side file and no in-memory cache yet. -/
def mgrC2 : Mgr :=
  ⟨[("b1", [("book.epub", .zipArch zC1)])], [("b1", ⟨none⟩)], "u", "t0"⟩

/-- An empty library for the `add_book` failure scenario. -/
def mgrC6 : Mgr := ⟨[], [], "u", "t"⟩

/-- A library holding one registered book `x`. -/
def mgrC7 : Mgr := ⟨[("x", [("book.epub", .raw "junk")])], [("x", ⟨none⟩)], "u", "t"⟩

/-- A package document two directories deep whose manifest href climbs one
directory with `../`. -/
def opfC8 : Opf := ⟨none, none, none, [("ch1", "../c.html")], ["ch1"]⟩

/-- An archive where the correctly resolved target `x/c.html` exists. -/
def zC8 : Zip := [("x/y/content.opf", .opfXml opfC8), ("x/c.html", .bytes "B")]

/-- A well-formed two-chapter EPUB (one spine target missing from the
archive) used to witness the spine-order read. -/
def opfC8w : Opf :=
  ⟨none, none, none, [("c1", "a.xhtml"), ("c2", "gone.xhtml")], ["c1", "c2"]⟩

/-- Archive around `opfC8w`: `a.xhtml` present, `gone.xhtml` absent. -/
def zC8w : Zip := [("OEBPS/content.opf", .opfXml opfC8w), ("OEBPS/a.xhtml", .bytes "A")]

theorem alook_nil (k : String) : alook ([] : List (String × α)) k = none := rfl

theorem alook_cons (x : String × α) (l : List (String × α)) (k : String) :
    alook (x :: l) k = if x.1 = k then some x.2 else alook l k := rfl

theorem alook_append (l₁ l₂ : List (String × α)) (k : String) :
    alook (l₁ ++ l₂) k = (alook l₁ k).or (alook l₂ k) := by
  induction l₁ with
  | nil => simp [alook]
  | cons x xs ih =>
    by_cases hx : x.1 = k <;> simp [alook, hx, ih]

theorem alook_aset_self (l : List (String × α)) (k : String) (v : α) :
    alook (aset l k v) k = some v := by
  induction l with
  | nil => simp [aset, alook]
  | cons x xs ih =>
    by_cases hx : x.1 = k <;> simp [aset, alook, hx, ih]

theorem alook_aset_ne (l : List (String × α)) (k k' : String) (v : α) (h : k' ≠ k) :
    alook (aset l k v) k' = alook l k' := by
  have h1 : ¬k = k' := fun he => h he.symm
  induction l with
  | nil => simp [aset, alook, h1]
  | cons x xs ih =>
    by_cases hx : x.1 = k
    · have h2 : ¬x.1 = k' := by rw [hx]; exact h1
      simp [aset, alook, hx, h1, h2]
    · by_cases hx' : x.1 = k' <;> simp [aset, alook, hx, hx', ih, h]

theorem aset_of_alook_none (l : List (String × α)) (k : String) (v : α)
    (h : alook l k = none) : aset l k v = l ++ [(k, v)] := by
  induction l with
  | nil => rfl
  | cons x xs ih =>
    rw [alook_cons] at h
    by_cases hx : x.1 = k
    · simp [hx] at h
    · simp only [hx, if_false] at h
      simp [aset, hx, ih h]

theorem alook_filter_none (l : List (String × α)) (k : String) (p : String × α → Bool)
    (h : alook l k = none) : alook (l.filter p) k = none := by
  induction l with
  | nil => rfl
  | cons x xs ih =>
    rw [alook_cons] at h
    by_cases hx : x.1 = k
    · simp [hx] at h
    · simp only [hx, if_false] at h
      by_cases hp : p x
      · simpa [List.filter_cons, hp, alook_cons, hx] using ih h
      · simpa [List.filter_cons, hp] using ih h

theorem alook_filter_ne_self (l : List (String × α)) (k : String) :
    alook (l.filter (fun kv => kv.1 ≠ k)) k = none := by
  induction l with
  | nil => rfl
  | cons x xs ih =>
    by_cases hx : x.1 = k
    · simpa [List.filter_cons, hx] using ih
    · simpa [List.filter_cons, hx, alook_cons] using ih

theorem alook_mem (l : List (String × α)) (k : String) (v : α)
    (h : alook l k = some v) : (k, v) ∈ l := by
  induction l with
  | nil => simp [alook] at h
  | cons x xs ih =>
    obtain ⟨a, b⟩ := x
    rw [alook_cons] at h
    by_cases hx : a = k
    · simp only [hx, if_true, Option.some.injEq] at h
      subst hx
      subst h
      exact List.mem_cons_self _ _
    · simp only [hx, if_false] at h
      exact List.mem_cons_of_mem _ (ih h)

theorem alook_map_override (d e : Dict) (k : String) :
    alook (d.map fun kv =>
      match alook e kv.1 with
      | some v => (kv.1, v)
      | none => kv) k = match alook d k, alook e k with
      | none, _ => none
      | some _, some v => some v
      | some w, none => some w := by
  induction d with
  | nil => simp [alook]
  | cons x xs ih =>
    by_cases hx : x.1 = k
    · subst hx
      rcases he : alook e x.1 with _ | v <;> simp [alook, he]
    · rcases he : alook e x.1 with _ | v <;>
        simpa [alook, he, hx] using ih

theorem alook_filter_isNone (d e : Dict) (k : String) :
    alook (e.filter fun kv => (alook d kv.1).isNone) k =
      match alook d k with
      | some _ => none
      | none => alook e k := by
  induction e with
  | nil => rcases alook d k <;> simp [alook]
  | cons y ys ih =>
    by_cases hy : y.1 = k
    · subst hy
      rcases hd : alook d y.1 with _ | w <;>
        simp [List.filter_cons, hd, alook_cons, ih]
    · rcases hd : alook d y.1 with _ | w <;>
        rcases hdk : alook d k with _ | w' <;>
        simp_all [List.filter_cons, hd, alook_cons, hy, ih]

theorem dictGet_dictUnion (d e : Dict) (k : String) :
    dictGet (dictUnion d e) k = (dictGet e k).or (dictGet d k) := by
  simp only [dictGet, dictUnion, alook_append, alook_map_override, alook_filter_isNone]
  rcases alook d k with _ | w <;> rcases alook e k with _ | v <;> rfl

theorem openBookB_ok (m : PMgr) (bid : String) (a : PBook) (m' : PMgr)
    (h : openBookB m bid a = .ok m') : m' = { m with openedBook := bid } := by
  unfold openBookB at h
  split at h
  · split at h <;> simp at h
  · split at h
    · simp at h
    · simpa using h.symm

theorem mem_updBook (m : PMgr) (bid : String) (b : PBook) (p : String × PBook)
    (hp : p ∈ (updBook m bid b).books) : p = (bid, b) ∨ p ∈ m.books := by
  simp only [updBook, List.mem_map] at hp
  obtain ⟨kv, hkv, heq⟩ := hp
  by_cases h : kv.1 = bid
  · left
    rw [← heq]
    simp [h]
  · right
    rw [← heq]
    simp only [h, if_false]
    exact hkv

theorem preachable_cursor_closed (m : PMgr) (hr : PReachable m) :
    ∀ p ∈ m.books, p.2.pageNow = -1 := by
  induction hr with
  | init ids =>
    intro p hp
    simp only [List.mem_map] at hp
    obtain ⟨i, _, heq⟩ := hp
    rw [← heq]
  | step hr hstep ih =>
    cases hstep with
    | loadOk bid a ha hl =>
      intro p hp
      rcases mem_updBook _ _ _ _ hp with heq | hmem
      · rw [heq]
        exact ih (bid, a) (alook_mem _ _ _ ha)
      · exact ih _ hmem
    | releaseB bid a ha =>
      intro p hp
      rcases mem_updBook _ _ _ _ hp with heq | hmem
      · rw [heq]
        exact ih (bid, a) (alook_mem _ _ _ ha)
      · exact ih _ hmem
    | openOk bid a m2 ha hok =>
      intro p hp
      rw [openBookB_ok _ bid a _ hok] at hp
      exact ih _ hp
    | closeB bid a ha =>
      intro p hp
      rcases mem_updBook _ _ _ _ hp with heq | hmem
      · rw [heq]
      · exact ih _ hmem
    | turnOk bid a n b' ha ht =>
      intro p hp
      have hneg : a.pageNow = -1 := ih _ (alook_mem _ _ _ ha)
      unfold turnToPage at ht
      rw [if_pos (show a.pageNow < 0 by omega)] at ht
      simp at ht
    | addB bid hb =>
      intro p hp
      rcases List.mem_append.mp hp with hmem | hmem
      · exact ih _ hmem
      · simp only [List.mem_singleton] at hmem
        rw [hmem]
    | delB bid =>
      intro p hp
      exact ih _ (List.mem_of_mem_filter hp)
    | rescan ids =>
      intro p hp
      simp only [List.mem_map] at hp
      obtain ⟨i, _, heq⟩ := hp
      rw [← heq]

/-- C5: in every state reachable through the public Book/BookManager
operations, every book's page cursor is `-1`; `open()` succeeds without
modifying any book's state; `is_opened` is always `False`;
`turn_to_page`/`next_page`/`prev_page` always raise `NotOpen`; and no
`open()` call can raise `AlreadyOpen` — the Open state of the state
machine is never entered. -/
theorem c5_open_state_never_entered (m : PMgr) (hr : PReachable m) :
    (∀ p ∈ m.books, p.2.pageNow = -1) ∧
    (∀ bid a m', alook m.books bid = some a → openBookB m bid a = .ok m' →
      m'.books = m.books) ∧
    (∀ p ∈ m.books, isOpened p.2 = false) ∧
    (∀ p ∈ m.books, ∀ n, turnToPage p.2 n = .error .notOpen) ∧
    (∀ p ∈ m.books, nextPage p.2 = .error .notOpen ∧ prevPage p.2 = .error .notOpen) ∧
    (∀ bid a e, alook m.books bid = some a → openBookB m bid a = .error e →
      ∀ t, e ≠ .alreadyOpen t) := by
  have hinv := preachable_cursor_closed m hr
  refine ⟨hinv, ?_, ?_, ?_, ?_, ?_⟩
  · intro bid a m' _ hok
    rw [openBookB_ok m bid a m' hok]
  · intro p hp
    simp [isOpened, hinv p hp]
  · intro p hp n
    unfold turnToPage
    rw [if_pos (by rw [hinv p hp]; exact neg_one_lt_zero)]
  · intro p hp
    have hneg := hinv p hp
    constructor
    · unfold nextPage turnToPage
      rw [if_pos (show p.2.pageNow < 0 by omega)]
    · unfold prevPage turnToPage
      rw [if_pos (show p.2.pageNow < 0 by omega)]
  · intro bid a e ha herr t
    have hneg : a.pageNow = -1 := hinv _ (alook_mem _ _ _ ha)
    unfold openBookB at herr
    by_cases hslot : m.openedBook ≠ ""
    · rw [if_pos hslot, if_pos hneg] at herr
      simp only [Except.error.injEq] at herr
      rw [← herr]
      intro hcontra
      exact BookErr.noConfusion hcontra
    · rw [if_neg hslot] at herr
      by_cases hload : a.loaded = false
      · rw [if_pos hload] at herr
        simp only [Except.error.injEq] at herr
        rw [← herr]
        intro hcontra
        exact BookErr.noConfusion hcontra
      · rw [if_neg hload] at herr
        simp at herr

/-- C5 witness: the one-book initial state is reachable and the theorem's
conclusions evaluate there. -/
theorem c5_witness :
    isOpened ⟨-1, false⟩ = false ∧ turnToPage ⟨-1, false⟩ 3 = .error .notOpen := by
  have h := c5_open_state_never_entered ⟨"", [("a", ⟨-1, false⟩)]⟩ (PReachable.init ["a"])
  exact ⟨h.2.2.1 ("a", ⟨-1, false⟩) (by simp), h.2.2.2.1 ("a", ⟨-1, false⟩) (by simp) 3⟩

/-- C3 counterexample: when another book holds the opened slot, `open()`
on a book with an empty content map raises `AnotherBookOpen`, not
`NotLoaded` — the slot check precedes the content-map check.  (The state
is reachable: `b` was loaded and opened, which sets the slot but leaves
every cursor at `-1`.) -/
theorem c3_counterexample :
    openBookB ⟨"b", [("a", ⟨-1, false⟩), ("b", ⟨-1, true⟩)]⟩ "a" ⟨-1, false⟩
      = .error (.anotherBookOpen "a" "b") ∧
    BookErr.anotherBookOpen "a" "b" ≠ BookErr.notLoaded := by
  refine ⟨rfl, ?_⟩
  intro hcontra
  exact BookErr.noConfusion hcontra

/-- C3 (amended): after a book `A` (with non-empty id) opens successfully,
`open()` on a different book `B` whose cursor is `-1` fails with
`AnotherBookOpen` naming `A`; when the slot already names `A` and `A`'s
cursor has advanced (`≥ 0`), a second `A.open()` fails with `AlreadyOpen`,
not `AnotherBookOpen`; and `open()` on a book with an empty content map
fails with `NotLoaded` provided the opened slot is empty. -/
theorem c3_open_errors :
    (∀ (m : PMgr) (A B : String) (a b : PBook) (m' : PMgr), A ≠ "" → A ≠ B →
      b.pageNow = -1 → alook m.books A = some a → alook m.books B = some b →
      openBookB m A a = .ok m' → openBookB m' B b = .error (.anotherBookOpen B A)) ∧
    (∀ (m : PMgr) (A : String) (a : PBook), A ≠ "" → m.openedBook = A →
      0 ≤ a.pageNow → alook m.books A = some a →
      openBookB m A a = .error (.alreadyOpen A)) ∧
    (∀ (m : PMgr) (A : String) (a : PBook), m.openedBook = "" → a.loaded = false →
      alook m.books A = some a → openBookB m A a = .error .notLoaded) := by
  refine ⟨?_, ?_, ?_⟩
  · intro m A B a b m' hA hAB hb _ _ hok
    rw [openBookB_ok m A a m' hok]
    unfold openBookB
    rw [if_pos (by simpa using hA), if_pos hb]
  · intro m A a hA hslot hpage _
    unfold openBookB
    rw [if_pos (by rw [hslot]; simpa using hA),
      if_neg (by intro hcontra; rw [hcontra] at hpage; omega)]
  · intro m A a hslot hload _
    unfold openBookB
    rw [if_neg (by rw [hslot]; simp), if_pos hload]

/-- C3 witness: the three branches at concrete states. -/
theorem c3_witness :
    openBookB ⟨"a", [("a", ⟨-1, true⟩), ("b", ⟨-1, true⟩)]⟩ "b" ⟨-1, true⟩
      = .error (.anotherBookOpen "b" "a") ∧
    openBookB ⟨"a", [("a", ⟨0, true⟩)]⟩ "a" ⟨0, true⟩ = .error (.alreadyOpen "a") ∧
    openBookB ⟨"", [("a", ⟨-1, false⟩)]⟩ "a" ⟨-1, false⟩ = .error .notLoaded := by
  refine ⟨?_, ?_, ?_⟩
  · exact c3_open_errors.1 ⟨"", [("a", ⟨-1, true⟩), ("b", ⟨-1, true⟩)]⟩ "a" "b"
      ⟨-1, true⟩ ⟨-1, true⟩ _ (by decide) (by decide) rfl rfl rfl rfl
  · exact c3_open_errors.2.1 ⟨"a", [("a", ⟨0, true⟩)]⟩ "a" ⟨0, true⟩
      (by decide) rfl (by decide) rfl
  · exact c3_open_errors.2.2 ⟨"", [("a", ⟨-1, false⟩)]⟩ "a" ⟨-1, false⟩ rfl rfl rfl

/-- C4: on the code as written the claim's success case fails — a fresh
loaded book opens successfully, yet its cursor is still `-1` afterwards,
so the very next `turn_to_page(0)` raises `NotOpen` instead of setting
the cursor. -/
theorem c4_open_then_turn_fails :
    openBookB ⟨"", [("a", ⟨-1, true⟩)]⟩ "a" ⟨-1, true⟩
      = .ok ⟨"a", [("a", ⟨-1, true⟩)]⟩ ∧
    turnToPage ⟨-1, true⟩ 0 = .error .notOpen := ⟨rfl, rfl⟩

/-- C7 counterexample: a second `hard_delete` on the same id raises
`KeyError` from `del self.books[bookid]` — it is not a no-op. -/
theorem c7_counterexample :
    (delBookEntirely mgrC7 "x").1 = .ok () ∧
    (delBookEntirely (delBookEntirely mgrC7 "x").2 "x").1 = .error .keyError :=
  ⟨rfl, rfl⟩

/-- C7 (amended): `hard_delete` on a registered id removes the book from
the registry and its directory from disk (a missing directory is not an
error), but a second call on the same id raises `KeyError` because the
registry deletion is unconditional. -/
theorem c7_hard_delete (m : Mgr) (bid : String) (r : BookRec)
    (h : alook m.books bid = some r) :
    (delBookEntirely m bid).1 = .ok () ∧
    alook (delBookEntirely m bid).2.books bid = none ∧
    alook (delBookEntirely m bid).2.fsBooks bid = none ∧
    (delBookEntirely (delBookEntirely m bid).2 bid).1 = .error .keyError := by
  have hsome : (alook m.books bid).isSome := by rw [h]; rfl
  refine ⟨?_, ?_, ?_, ?_⟩
  · simp [delBookEntirely, hsome]
  · simp only [delBookEntirely, hsome, if_true]
    exact alook_filter_ne_self _ _
  · simp only [delBookEntirely, hsome, if_true]
    exact alook_filter_ne_self _ _
  · have h2 : alook (delBookEntirely m bid).2.books bid = none := by
      simp only [delBookEntirely, hsome, if_true]
      exact alook_filter_ne_self _ _
    generalize hW : (delBookEntirely m bid).2 = W at h2 ⊢
    simp [delBookEntirely, h2]

/-- C7 witness: the amended theorem at the concrete one-book library. -/
theorem c7_witness :
    (delBookEntirely mgrC7 "x").1 = .ok () ∧
    alook (delBookEntirely mgrC7 "x").2.books "x" = none ∧
    alook (delBookEntirely mgrC7 "x").2.fsBooks "x" = none ∧
    (delBookEntirely (delBookEntirely mgrC7 "x").2 "x").1 = .error .keyError :=
  c7_hard_delete mgrC7 "x" ⟨none⟩ rfl

theorem firstFresh_some (books : List String) (draw : Nat → String) :
    ∀ (n start : Nat) (bid : String), firstFresh books draw start n = some bid →
      bid ∉ books ∧ ∃ i, i < n ∧ bid = draw (start + i) := by
  intro n
  induction n with
  | zero => intro start bid h; simp [firstFresh] at h
  | succ k ih =>
    intro start bid h
    unfold firstFresh at h
    by_cases hd : draw start ∈ books
    · rw [if_pos hd] at h
      obtain ⟨h1, i, hi, heq⟩ := ih (start + 1) bid h
      exact ⟨h1, i + 1, by omega, by rw [heq]; congr 1; omega⟩
    · rw [if_neg hd] at h
      simp only [Option.some.injEq] at h
      exact ⟨by rw [← h]; exact hd, 0, by omega, by rw [← h]; congr 1⟩

theorem firstFresh_none (books : List String) (draw : Nat → String) :
    ∀ (n start : Nat), firstFresh books draw start n = none ↔
      ∀ i, i < n → draw (start + i) ∈ books := by
  intro n
  induction n with
  | zero => intro start; simp [firstFresh]
  | succ k ih =>
    intro start
    unfold firstFresh
    by_cases hd : draw start ∈ books
    · rw [if_pos hd, ih (start + 1)]
      constructor
      · intro h i hi
        rcases Nat.eq_zero_or_pos i with h0 | h0
        · rw [h0]
          simpa using hd
        · have := h (i - 1) (by omega)
          have harg : start + 1 + (i - 1) = start + i := by omega
          rwa [harg] at this
      · intro h i hi
        have := h (i + 1) (by omega)
        have harg : start + (i + 1) = start + 1 + i := by omega
        rwa [harg] at this
    · rw [if_neg hd]
      constructor
      · intro h
        exact Option.noConfusion h
      · intro h
        exact absurd (by simpa using h 0 (by omega)) hd

/-- C10: `get_new_bookid` never returns an id that is already a registry
key; a returned id comes from the 8-byte stream within the first
`maxruns - maxruns / 2` attempts, or — when every one of those draws
collides — from the 16-byte stream within the remaining `maxruns / 2`
attempts; and the `RuntimeError` is raised exactly when every draw of both
loops collides with an existing key.  `token_hex(8)`/`token_hex(16)`
produce 16- resp. 32-hex-character strings, carried by the hypotheses on
the two streams. -/
theorem c10_get_new_bookid (books : List String) (draw8 draw16 : Nat → String)
    (maxruns : Nat) (h8 : ∀ i, (draw8 i).length = 16)
    (h16 : ∀ i, (draw16 i).length = 32) :
    (∀ bid, getNewBookid books draw8 draw16 maxruns = .ok bid →
      bid ∉ books ∧ (bid.length = 16 ∨ bid.length = 32)) ∧
    (∀ bid, getNewBookid books draw8 draw16 maxruns = .ok bid →
      (∃ i, i < maxruns - maxruns / 2 ∧ bid = draw8 i) ∨
      ((∀ i, i < maxruns - maxruns / 2 → draw8 i ∈ books) ∧
        ∃ i, i < maxruns / 2 ∧ bid = draw16 i)) ∧
    (getNewBookid books draw8 draw16 maxruns
        = .error (.runtimeError ("can't find a legal book id after "
            ++ toString maxruns ++ " runs")) ↔
      (∀ i, i < maxruns - maxruns / 2 → draw8 i ∈ books) ∧
      (∀ i, i < maxruns / 2 → draw16 i ∈ books)) := by
  refine ⟨?_, ?_, ?_⟩
  · intro bid h
    unfold getNewBookid at h
    rcases hf1 : firstFresh books draw8 0 (maxruns - maxruns / 2) with _ | c1
    · rw [hf1] at h
      rcases hf2 : firstFresh books draw16 0 (maxruns / 2) with _ | c2
      · rw [hf2] at h
        simp at h
      · rw [hf2] at h
        simp only [Except.ok.injEq] at h
        obtain ⟨hmem, i, _, heq⟩ := firstFresh_some books draw16 _ 0 c2 hf2
        rw [← h]
        exact ⟨hmem, Or.inr (by rw [heq]; exact h16 _)⟩
    · rw [hf1] at h
      simp only [Except.ok.injEq] at h
      obtain ⟨hmem, i, _, heq⟩ := firstFresh_some books draw8 _ 0 c1 hf1
      rw [← h]
      exact ⟨hmem, Or.inl (by rw [heq]; exact h8 _)⟩
  · intro bid h
    unfold getNewBookid at h
    rcases hf1 : firstFresh books draw8 0 (maxruns - maxruns / 2) with _ | c1
    · rw [hf1] at h
      rcases hf2 : firstFresh books draw16 0 (maxruns / 2) with _ | c2
      · rw [hf2] at h
        simp at h
      · rw [hf2] at h
        simp only [Except.ok.injEq] at h
        obtain ⟨_, i, hi, heq⟩ := firstFresh_some books draw16 _ 0 c2 hf2
        refine Or.inr ⟨?_, i, hi, by rw [← h, heq]; congr 1; omega⟩
        intro j hj
        have := ((firstFresh_none books draw8 _ 0).mp hf1) j hj
        simpa using this
    · rw [hf1] at h
      simp only [Except.ok.injEq] at h
      obtain ⟨_, i, hi, heq⟩ := firstFresh_some books draw8 _ 0 c1 hf1
      exact Or.inl ⟨i, hi, by rw [← h, heq]; congr 1; omega⟩
  · constructor
    · intro h
      unfold getNewBookid at h
      rcases hf1 : firstFresh books draw8 0 (maxruns - maxruns / 2) with _ | c1
      · rw [hf1] at h
        rcases hf2 : firstFresh books draw16 0 (maxruns / 2) with _ | c2
        · constructor
          · intro i hi
            have := ((firstFresh_none books draw8 _ 0).mp hf1) i hi
            simpa using this
          · intro i hi
            have := ((firstFresh_none books draw16 _ 0).mp hf2) i hi
            simpa using this
        · rw [hf2] at h
          simp at h
      · rw [hf1] at h
        simp at h
    · intro ⟨ha, hb⟩
      unfold getNewBookid
      have hf1 : firstFresh books draw8 0 (maxruns - maxruns / 2) = none :=
        (firstFresh_none books draw8 _ 0).mpr (by intro i hi; simpa using ha i hi)
      have hf2 : firstFresh books draw16 0 (maxruns / 2) = none :=
        (firstFresh_none books draw16 _ 0).mpr (by intro i hi; simpa using hb i hi)
      rw [hf1, hf2]

/-- C10 witness: a fresh first draw is returned and is a 16-character id
not present in the registry. -/
theorem c10_witness :
    "0123456789abcdef" ∉ ["deadbeef"] ∧
    ("0123456789abcdef".length = 16 ∨ "0123456789abcdef".length = 32) :=
  (c10_get_new_bookid ["deadbeef"] (fun _ => "0123456789abcdef")
    (fun _ => "00112233445566778899aabbccddeeff") 20
    (fun _ => rfl) (fun _ => rfl)).1 "0123456789abcdef" rfl

/-- C9 counterexample: `read_ebook` on a direct file whose suffix is not
`.epub` falls out of the un-defaulted `match` and returns Python `None` —
neither full content/metadata nor an error. -/
theorem c9_counterexample :
    (readEbook "" [("a.txt", DFile.raw "x")] (some "a.txt") false).1 = .ok none := rfl

/-- C9 (amended): a directory with no recognizable book file fails with
`NotImplementedError("unsupported book format")` (the UnsupportedFormat
kind, not NotFound); an EPUB without a package document fails with
`NotImplementedError("unsupported epub format")`; but a direct file of an
unsupported suffix returns `None` instead of raising, so the
no-partial-success guarantee does not hold. -/
theorem c9_error_modes :
    (∀ (dirpath : String) (files : DirFiles) (onlyMeta : Bool),
      findEpubChild files = none →
      (readEbook dirpath files none onlyMeta).1
        = .error (.notImplemented "unsupported book format")) ∧
    (∀ (dirpath : String) (files : DirFiles) (n : String) (z : Zip),
      alook files n = some (.zipArch z) → extOf n = ".epub" → findOpf z = "" →
      (readEbook dirpath files (some n) true).1
        = .error (.notImplemented "unsupported epub format")) ∧
    (∀ (dirpath : String) (files : DirFiles) (n : String), extOf n ≠ ".epub" →
      (readEbook dirpath files (some n) false).1 = .ok none) := by
  refine ⟨?_, ?_, ?_⟩
  · intro dirpath files onlyMeta h
    simp [readEbook, h]
  · intro dirpath files n z hn hext hopf
    simp [readEbook, readEbookFile, hext, readEpubMetadataD, hn, hopf]
  · intro dirpath files n hext
    simp [readEbook, readEbookFile, hext]

/-- C9 witness: the three modes at concrete inputs. -/
theorem c9_witness :
    (readEbook "books/b" [("notes.txt", DFile.raw "n")] none true).1
      = .error (.notImplemented "unsupported book format") ∧
    (readEbook "books/b" [("b.epub", DFile.zipArch [("mimetype", .bytes "x")])]
        (some "b.epub") true).1
      = .error (.notImplemented "unsupported epub format") ∧
    (readEbook "books/b" [("b.mobi", DFile.raw "m")] (some "b.mobi") false).1
      = .ok none := by
  refine ⟨?_, ?_, ?_⟩
  · exact c9_error_modes.1 "books/b" [("notes.txt", DFile.raw "n")] true rfl
  · exact c9_error_modes.2.1 "books/b" [("b.epub", DFile.zipArch [("mimetype", .bytes "x")])]
      "b.epub" [("mimetype", .bytes "x")] rfl rfl rfl
  · exact c9_error_modes.2.2 "books/b" [("b.mobi", DFile.raw "m")] "b.mobi" (by decide)

/-- C2: the update-then-get law fails once the metadata has been
materialized in the current session.  Materializing caches the record;
`update_metadata(status="deleted")` writes the merge to the side file but
leaves the cache stale, so the following `get_metadata()` still returns
`status="normal"`. -/
theorem c2_update_then_get_stale :
    (getMetadataM mgrC2 "b1").1 = .ok mdC2 ∧
    (updateMetadataM (getMetadataM mgrC2 "b1").2 "b1"
        [("status", .str "deleted")]).1 = .ok () ∧
    (getMetadataM (updateMetadataM (getMetadataM mgrC2 "b1").2 "b1"
        [("status", .str "deleted")]).2 "b1").1 = .ok mdC2 ∧
    dictGet mdC2 "status" = some (.str "normal") ∧
    dictGet (dictUnion mdC2 [("status", .str "deleted")]) "status"
      = some (.str "deleted") ∧
    MVal.str "normal" ≠ MVal.str "deleted" := by
  refine ⟨rfl, rfl, rfl, rfl, rfl, ?_⟩
  intro hcontra
  simp at hcontra

theorem saveCover_error_files (z : Zip) (ch dp : String) (files : DirFiles)
    (e : PyErr) (files' : DirFiles)
    (h : saveCover z ch dp files = (.error e, files')) :
    files' = files ∨ files' = files.filter (fun f => stemOf f.1 ≠ "cover") := by
  rcases hz : zRead z ch with _ | en
  · have heq : saveCover z ch dp files = (.error .keyError, files) := by
      simp [saveCover, hz]
    rw [heq] at h
    injection h with h1 h2
    exact Or.inl h2.symm
  · cases en with
    | bytes b =>
      have heq : saveCover z ch dp files
          = (.error .unidentifiedImage, files.filter (fun f => stemOf f.1 ≠ "cover")) := by
        simp [saveCover, hz]
      rw [heq] at h
      injection h with h1 h2
      exact Or.inr h2.symm
    | opfXml d =>
      have heq : saveCover z ch dp files
          = (.error .unidentifiedImage, files.filter (fun f => stemOf f.1 ≠ "cover")) := by
        simp [saveCover, hz]
      rw [heq] at h
      injection h with h1 h2
      exact Or.inr h2.symm
    | img w ht =>
      rcases hr : imageAutoResize w ht 248 360 with er | p
      · have heq : saveCover z ch dp files
            = (.error er, files.filter (fun f => stemOf f.1 ≠ "cover")) := by
          simp [saveCover, hz, hr]
        rw [heq] at h
        injection h with h1 h2
        exact Or.inr h2.symm
      · obtain ⟨pw, ph⟩ := p
        have heq : saveCover z ch dp files
            = (.ok (dp ++ "/" ++ afterLastSlash ch),
               aset (files.filter (fun f => stemOf f.1 ≠ "cover")) (afterLastSlash ch)
                 (.img pw ph)) := by
          simp [saveCover, hz, hr]
        rw [heq] at h
        injection h with h1 h2
        exact Except.noConfusion h1

theorem readEpubMetadataD_error_files (dp : String) (files : DirFiles) (n : String)
    (e : PyErr) (files' : DirFiles)
    (h : readEpubMetadataD dp files n = (.error e, files')) :
    files' = files ∨ files' = files.filter (fun f => stemOf f.1 ≠ "cover") := by
  rcases hf : alook files n with _ | c
  · have heq : readEpubMetadataD dp files n = (.error .fileNotFound, files) := by
      simp [readEpubMetadataD, hf]
    rw [heq] at h
    injection h with h1 h2
    exact Or.inl h2.symm
  · cases c with
    | img w ht =>
      have heq : readEpubMetadataD dp files n = (.error .badZip, files) := by
        simp [readEpubMetadataD, hf]
      rw [heq] at h
      injection h with h1 h2
      exact Or.inl h2.symm
    | yamlDict d =>
      have heq : readEpubMetadataD dp files n = (.error .badZip, files) := by
        simp [readEpubMetadataD, hf]
      rw [heq] at h
      injection h with h1 h2
      exact Or.inl h2.symm
    | raw b =>
      have heq : readEpubMetadataD dp files n = (.error .badZip, files) := by
        simp [readEpubMetadataD, hf]
      rw [heq] at h
      injection h with h1 h2
      exact Or.inl h2.symm
    | zipArch z =>
      by_cases hopf : findOpf z = ""
      · have heq : readEpubMetadataD dp files n
            = (.error (.notImplemented "unsupported epub format"), files) := by
          simp [readEpubMetadataD, hf, hopf]
        rw [heq] at h
        injection h with h1 h2
        exact Or.inl h2.symm
      · rcases hinfo : getOpfInfo z (findOpf z) with e2 | info
        · have heq : readEpubMetadataD dp files n = (.error e2, files) := by
            simp [readEpubMetadataD, hf, hopf, hinfo]
          rw [heq] at h
          injection h with h1 h2
          exact Or.inl h2.symm
        · obtain ⟨author, ch⟩ := info
          rcases hsv : saveCover z ch dp files with ⟨r, f2⟩
          cases r with
          | error e3 =>
            have heq : readEpubMetadataD dp files n = (.error e3, f2) := by
              simp [readEpubMetadataD, hf, hopf, hinfo, hsv]
            rw [heq] at h
            injection h with h1 h2
            rw [← h2]
            exact saveCover_error_files z ch dp files e3 f2 hsv
          | ok coverPath =>
            have heq : readEpubMetadataD dp files n
                = (.ok [("title", .str (stemOf n)), ("author", .str author),
                    ("filepath", .str (dp ++ "/" ++ n)), ("coverpath", .str coverPath)],
                   f2) := by
              simp [readEpubMetadataD, hf, hopf, hinfo, hsv]
            rw [heq] at h
            injection h with h1 h2
            exact Except.noConfusion h1

theorem readEbookFile_meta_cases (dp : String) (files : DirFiles) (n : String)
    (hn : extOf n = ".epub") :
    (∃ e f', readEbookFile dp files n true = (.error e, f')) ∨
    (∃ d f', readEbookFile dp files n true = (.ok (some (.meta d)), f')) := by
  unfold readEbookFile
  rw [if_pos hn]
  rcases hm : readEpubMetadataD dp files n with ⟨r, f2⟩
  cases r with
  | error e => exact Or.inl ⟨e, f2, rfl⟩
  | ok d => exact Or.inr ⟨d, f2, rfl⟩

theorem findEpubChild_ext (files : DirFiles) (n : String)
    (hc : findEpubChild files = some n) : extOf n = ".epub" := by
  unfold findEpubChild at hc
  rcases hf : files.find? (fun f => extOf f.1 == ".epub") with _ | p
  · rw [hf] at hc
    exact Option.noConfusion hc
  · rw [hf] at hc
    have hp := List.find?_some hf
    have hn : p.1 = n := by simpa using hc
    rw [← hn]
    simpa using hp

theorem readEbook_of_child (dp : String) (files : DirFiles) (n : String)
    (onlyMeta : Bool) (hc : findEpubChild files = some n) :
    readEbook dp files none onlyMeta = readEbookFile dp files n onlyMeta := by
  simp [readEbook, hc]

theorem readEbook_meta_cases (dp : String) (files : DirFiles) :
    (∃ e f', readEbook dp files none true = (.error e, f')) ∨
    (∃ d f', readEbook dp files none true = (.ok (some (.meta d)), f')) := by
  rcases hc : findEpubChild files with _ | n
  · refine Or.inl ⟨.notImplemented "unsupported book format", files, ?_⟩
    simp [readEbook, hc]
  · rw [readEbook_of_child dp files n true hc]
    exact readEbookFile_meta_cases dp files n (findEpubChild_ext files n hc)

theorem readEbookFile_meta_error_files (dp : String) (files : DirFiles) (n : String)
    (e : PyErr) (files' : DirFiles)
    (h : readEbookFile dp files n true = (.error e, files')) :
    files' = files ∨ files' = files.filter (fun f => stemOf f.1 ≠ "cover") := by
  by_cases hn : extOf n = ".epub"
  · rcases hm : readEpubMetadataD dp files n with ⟨r, f2⟩
    cases r with
    | error e2 =>
      have heq : readEbookFile dp files n true = (.error e2, f2) := by
        simp [readEbookFile, hn, hm]
      rw [heq] at h
      injection h with h1 h2
      rw [← h2]
      exact readEpubMetadataD_error_files dp files n e2 f2 hm
    | ok d =>
      have heq : readEbookFile dp files n true = (.ok (some (.meta d)), f2) := by
        simp [readEbookFile, hn, hm]
      rw [heq] at h
      injection h with h1 h2
      exact Except.noConfusion h1
  · have heq : readEbookFile dp files n true = (.ok none, files) := by
      simp [readEbookFile, hn]
    rw [heq] at h
    injection h with h1 h2
    exact Except.noConfusion h1

theorem readEbook_meta_error_files (dp : String) (files : DirFiles)
    (e : PyErr) (files' : DirFiles)
    (h : readEbook dp files none true = (.error e, files')) :
    files' = files ∨ files' = files.filter (fun f => stemOf f.1 ≠ "cover") := by
  rcases hc : findEpubChild files with _ | n
  · have heq : readEbook dp files none true
        = (.error (.notImplemented "unsupported book format"), files) := by
      simp [readEbook, hc]
    rw [heq] at h
    injection h with h1 h2
    exact Or.inl h2.symm
  · rw [readEbook_of_child dp files n true hc] at h
    exact readEbookFile_meta_error_files dp files n e files' h

theorem getMetadataM_error_state (m : Mgr) (bid : String) (e : PyErr) (m' : Mgr)
    (h : getMetadataM m bid = (.error e, m')) :
    m' = m ∨ ∃ files', m' = setFs m bid files' ∧
      readEbook (bookDirPath bid) ((alook m.fsBooks bid).getD []) none true
        = (.error e, files') := by
  rcases hb : alook m.books bid with _ | r
  · have heq : getMetadataM m bid = (.error .keyError, m) := by
      simp [getMetadataM, hb]
    rw [heq] at h
    injection h with h1 h2
    exact Or.inl h2.symm
  · rcases hc : r.cache with _ | md
    · rcases hy : alook ((alook m.fsBooks bid).getD []) "metadata.yml" with _ | f
      · rcases hre : readEbook (bookDirPath bid) ((alook m.fsBooks bid).getD [])
            none true with ⟨r2, f2⟩
        match r2, hre with
        | .error e2, hre =>
          have heq : getMetadataM m bid = (.error e2, setFs m bid f2) := by
            simp [getMetadataM, hb, hc, hy, hre]
          rw [heq] at h
          injection h with h1 h2
          refine Or.inr ⟨f2, h2.symm, ?_⟩
          injection h1 with h1e
          rw [← h1e]
        | .ok none, hre =>
          have heq : getMetadataM m bid = (.error .attrError, setFs m bid f2) := by
            simp [getMetadataM, hb, hc, hy, hre]
          rw [heq] at h
          injection h with h1 h2
          refine Or.inr ⟨f2, h2.symm, ?_⟩
          rcases readEbook_meta_cases (bookDirPath bid)
              ((alook m.fsBooks bid).getD []) with ⟨e3, f3, hcase⟩ | ⟨d3, f3, hcase⟩
          · rw [hre] at hcase
            exact absurd (congrArg Prod.fst hcase) (by simp)
          · rw [hre] at hcase
            exact absurd (congrArg Prod.fst hcase) (by simp)
        | .ok (some (.content its)), hre =>
          exfalso
          rcases readEbook_meta_cases (bookDirPath bid)
              ((alook m.fsBooks bid).getD []) with ⟨e3, f3, hcase⟩ | ⟨d3, f3, hcase⟩
          · rw [hre] at hcase
            exact absurd (congrArg Prod.fst hcase) (by simp)
          · rw [hre] at hcase
            exact absurd (congrArg Prod.fst hcase) (by simp)
        | .ok (some (.meta md0)), hre =>
          have heq : (getMetadataM m bid).1 = .ok (dictUnion md0
              [("uploader", .str m.username), ("uploadtime", .str m.clock),
               ("status", .str "normal"), ("progress", .pair 0 1)]) := by
            simp [getMetadataM, hb, hc, hy, hre]
          rw [h] at heq
          exact Except.noConfusion heq
      · match f, hy with
        | .zipArch z2, hy =>
          have heq : getMetadataM m bid = (.error .typeError, m) := by
            simp [getMetadataM, hb, hc, hy]
          rw [heq] at h
          injection h with h1 h2
          exact Or.inl h2.symm
        | .img w ht, hy =>
          have heq : getMetadataM m bid = (.error .typeError, m) := by
            simp [getMetadataM, hb, hc, hy]
          rw [heq] at h
          injection h with h1 h2
          exact Or.inl h2.symm
        | .raw b2, hy =>
          have heq : getMetadataM m bid = (.error .typeError, m) := by
            simp [getMetadataM, hb, hc, hy]
          rw [heq] at h
          injection h with h1 h2
          exact Or.inl h2.symm
        | .yamlDict d2, hy =>
          have heq : (getMetadataM m bid).1 = .ok d2 := by
            simp [getMetadataM, hb, hc, hy]
          rw [h] at heq
          exact Except.noConfusion heq
    · have heq : (getMetadataM m bid).1 = .ok md := by
        simp [getMetadataM, hb, hc]
      rw [h] at heq
      exact Except.noConfusion heq

theorem getMetadataM_error_books (m : Mgr) (bid : String) (e : PyErr) (m' : Mgr)
    (h : getMetadataM m bid = (.error e, m')) : m'.books = m.books := by
  rcases getMetadataM_error_state m bid e m' h with heq | ⟨files', heq, _⟩
  · rw [heq]
  · rw [heq]
    rfl

theorem getMetadataM_error_yml (m : Mgr) (bid : String) (e : PyErr) (m' : Mgr)
    (h : getMetadataM m bid = (.error e, m'))
    (hy : alook ((alook m.fsBooks bid).getD []) "metadata.yml" = none) :
    alook ((alook m'.fsBooks bid).getD []) "metadata.yml" = none := by
  rcases getMetadataM_error_state m bid e m' h with heq | ⟨files', heq, hre⟩
  · rw [heq]
    exact hy
  · rw [heq]
    simp only [setFs]
    rw [alook_aset_self]
    simp only [Option.getD_some]
    rcases readEbook_meta_error_files (bookDirPath bid)
        ((alook m.fsBooks bid).getD []) e files' hre with hsh | hsh
    · rw [hsh]
      exact hy
    · rw [hsh]
      exact alook_filter_none _ _ _ hy

/-- C6 counterexample: `add_book` with a non-EPUB source fails during the
forced metadata materialization, yet the registry keeps the entry under
the freshly allocated id — the failure is not atomic. -/
theorem c6_counterexample :
    (addBook mgrC6 (some ("a.txt", .raw "x")) "id1").1
      = .error (.notImplemented "unsupported book format") ∧
    alook (addBook mgrC6 (some ("a.txt", .raw "x")) "id1").2.books "id1"
      = some ⟨none⟩ := ⟨rfl, rfl⟩

/-- C6 (amended): failures raised before the registry insertion (missing
source, or the id's directory already existing) leave the manager exactly
unchanged; but when the eager metadata materialization of the copied file
fails, the fresh registry entry and the copied file remain in place.  No
metadata side file is ever written on a failing call. -/
theorem c6_add_book_failure :
    (∀ (m : Mgr) (bid : String), addBook m none bid = (.error .fileNotFound, m)) ∧
    (∀ (m : Mgr) (sc : String × DFile) (bid : String), (alook m.fsBooks bid).isSome →
      addBook m (some sc) bid = (.error .fileExists, m)) ∧
    (∀ (m : Mgr) (srcName : String) (content : DFile) (bid : String) (e : PyErr)
      (m' : Mgr), alook m.fsBooks bid = none → srcName ≠ "metadata.yml" →
      addBook m (some (srcName, content)) bid = (.error e, m') →
      alook m'.books bid = some ⟨none⟩ ∧
      alook ((alook m'.fsBooks bid).getD []) "metadata.yml" = none) := by
  refine ⟨?_, ?_, ?_⟩
  · intro m bid
    rfl
  · intro m sc bid hs
    obtain ⟨srcName, content⟩ := sc
    simp [addBook, hs]
  · intro m srcName content bid e m' hfs hnm h
    have hnone : (alook m.fsBooks bid).isSome = false := by rw [hfs]; rfl
    set m2 : Mgr := { m with
      fsBooks := aset m.fsBooks bid [(srcName, content)],
      books := aset m.books bid ⟨none⟩ } with hm2
    have haddeq : addBook m (some (srcName, content)) bid = getMetadataM m2 bid := by
      rw [hm2]
      simp [addBook, hnone]
    rw [haddeq] at h
    have hmatch : getMetadataM m2 bid = (.error e, m') := h
    have hbooks : m'.books = m2.books := getMetadataM_error_books m2 bid e m' hmatch
    have hfiles : alook m2.fsBooks bid = some [(srcName, content)] := by
      rw [hm2]
      exact alook_aset_self _ _ _
    have hy : alook ((alook m2.fsBooks bid).getD []) "metadata.yml" = none := by
      rw [hfiles]
      simp only [Option.getD_some]
      rw [alook_cons]
      rw [if_neg (by simpa using hnm)]
      rfl
    refine ⟨?_, getMetadataM_error_yml m2 bid e m' hmatch hy⟩
    rw [hbooks, hm2]
    exact alook_aset_self _ _ _

/-- C6 witness: the amended theorem instantiated at an empty library and a
plain-text source. -/
theorem c6_witness :
    addBook mgrC6 none "id9" = (.error .fileNotFound, mgrC6) ∧
    alook (addBook mgrC6 (some ("a.txt", DFile.raw "x")) "id2").2.books "id2"
      = some ⟨none⟩ ∧
    alook ((alook (addBook mgrC6 (some ("a.txt", DFile.raw "x")) "id2").2.fsBooks
      "id2").getD []) "metadata.yml" = none := by
  refine ⟨c6_add_book_failure.1 mgrC6 "id9", ?_, ?_⟩
  · exact (c6_add_book_failure.2.2 mgrC6 "a.txt" (DFile.raw "x") "id2"
      (.notImplemented "unsupported book format")
      (addBook mgrC6 (some ("a.txt", DFile.raw "x")) "id2").2 rfl
      (by decide) rfl).1
  · exact (c6_add_book_failure.2.2 mgrC6 "a.txt" (DFile.raw "x") "id2"
      (.notImplemented "unsupported book format")
      (addBook mgrC6 (some ("a.txt", DFile.raw "x")) "id2").2 rfl
      (by decide) rfl).2

theorem mk_toList (s : String) : String.mk s.toList = s := by
  cases s
  rfl

theorem mergeDirL_no_dotdot (f : String) (cs : List Char)
    (h : startsWithDotDot (String.mk cs) = false) :
    mergeDirL f cs = f ++ String.mk cs := by
  unfold mergeDirL
  split
  · exfalso
    simp [startsWithDotDot, String.toList] at h
  · rfl

theorem specResolveL_no_dotdot (f : String) (cs : List Char)
    (h : startsWithDotDot (String.mk cs) = false) :
    specResolveL f cs = f ++ String.mk cs := by
  unfold specResolveL
  split
  · exfalso
    simp [startsWithDotDot, String.toList] at h
  · rfl

theorem empty_append_str (s : String) : "" ++ s = s := by
  cases s
  rfl

theorem mergeDir_no_dotdot (f rel : String) (h : startsWithDotDot rel = false) :
    mergeDir f rel = f ++ rel := by
  unfold mergeDir
  rw [mergeDirL_no_dotdot f rel.toList (by rw [mk_toList]; exact h), mk_toList]

theorem specResolve_no_dotdot (f rel : String) (h : startsWithDotDot rel = false) :
    specResolve f rel = f ++ rel := by
  unfold specResolve
  rw [specResolveL_no_dotdot f rel.toList (by rw [mk_toList]; exact h), mk_toList]

theorem upToLastSlash_no_slash (s : String) (h : ('/' : Char) ∉ s.toList) :
    upToLastSlash s = "" := by
  unfold upToLastSlash
  have hd : s.toList.reverse.dropWhile (fun c => c ≠ '/') = [] := by
    rw [List.dropWhile_eq_nil_iff]
    intro x hx
    have hmem : x ∈ s.toList := List.mem_reverse.mp hx
    have hne : x ≠ '/' := fun he => h (he ▸ hmem)
    simpa using hne
  rw [hd]
  rfl

theorem toList_append_slash (d : String) : (d ++ "/").toList = d.toList ++ ['/'] := by
  cases d
  rfl

theorem pathParentS_single_dir (d : String) (h : ('/' : Char) ∉ d.toList) :
    pathParentS (d ++ "/") = "." := by
  unfold pathParentS
  rw [toList_append_slash, List.getLast?_concat]
  rw [if_pos rfl, List.dropLast_concat]
  have hd : d.toList.reverse.dropWhile (fun c => c ≠ '/') = [] := by
    rw [List.dropWhile_eq_nil_iff]
    intro x hx
    have hmem : x ∈ d.toList := List.mem_reverse.mp hx
    have hne : x ≠ '/' := fun he => h (he ▸ hmem)
    simpa using hne
  simp only [hd]

theorem mergeDir_single_up (dname rest : String) (hd : ('/' : Char) ∉ dname.toList)
    (hr : startsWithDotDot rest = false) :
    mergeDir (dname ++ "/") ("../" ++ rest) = rest := by
  have h1 : ("../" ++ rest).toList = '.' :: '.' :: '/' :: rest.toList := by
    cases rest
    rfl
  unfold mergeDir
  rw [h1]
  show mergeDirL (if pathParentS (dname ++ "/") = "."
    then "" else pathParentS (dname ++ "/")) rest.toList = rest
  rw [pathParentS_single_dir dname hd, if_pos rfl,
    mergeDirL_no_dotdot "" rest.toList (by rw [mk_toList]; exact hr), mk_toList,
    empty_append_str]

theorem specResolve_single_up (dname rest : String) (hd : ('/' : Char) ∉ dname.toList)
    (hr : startsWithDotDot rest = false) :
    specResolve (dname ++ "/") ("../" ++ rest) = rest := by
  have h1 : ("../" ++ rest).toList = '.' :: '.' :: '/' :: rest.toList := by
    cases rest
    rfl
  unfold specResolve
  rw [h1]
  show specResolveL (upToLastSlash (String.mk (dname ++ "/").toList.dropLast))
    rest.toList = rest
  rw [toList_append_slash, List.dropLast_concat, mk_toList,
    upToLastSlash_no_slash dname hd,
    specResolveL_no_dotdot "" rest.toList (by rw [mk_toList]; exact hr), mk_toList,
    empty_append_str]

theorem opfItemsLoop_preserve (z : Zip) (maindir : String) (d : Opf) :
    ∀ (l : List String) (acc items : List (String × ZEntry)) (k : String) (v : ZEntry),
      k ∉ l → alook acc k = some v →
      opfItemsLoop z maindir d l acc = .ok items → alook items k = some v := by
  intro l
  induction l with
  | nil =>
    intro acc items k v _ hacc h
    unfold opfItemsLoop at h
    simp only [Except.ok.injEq] at h
    rw [← h]
    exact hacc
  | cons i rest ih =>
    intro acc items k v hk hacc h
    rcases hm : alook d.items i with _ | href
    · have : opfItemsLoop z maindir d (i :: rest) acc = .error .attrError := by
        simp [opfItemsLoop, hm]
      rw [this] at h
      exact Except.noConfusion h
    · have hki : k ≠ i := fun he => hk (by rw [he]; exact List.mem_cons_self _ _)
      have hstep : opfItemsLoop z maindir d (i :: rest) acc
          = opfItemsLoop z maindir d rest (aset acc i (resolveEntry z maindir href)) := by
        simp [opfItemsLoop, hm]
      rw [hstep] at h
      exact ih _ items k v (fun hmem => hk (List.mem_cons_of_mem _ hmem))
        (by rw [alook_aset_ne _ _ _ _ hki]; exact hacc) h

theorem opfItemsLoop_spec (z : Zip) (maindir : String) (d : Opf) :
    ∀ (l : List String) (acc : List (String × ZEntry)), l.Nodup →
      (∀ i ∈ l, ∃ href, alook d.items i = some href) →
      (∀ i ∈ l, alook acc i = none) →
      ∃ items, opfItemsLoop z maindir d l acc = .ok items ∧
        items.map Prod.fst = acc.map Prod.fst ++ l ∧
        (∀ i ∈ l, ∀ href, alook d.items i = some href →
          alook items i = some (resolveEntry z maindir href)) := by
  intro l
  induction l with
  | nil =>
    intro acc _ _ _
    refine ⟨acc, rfl, by simp, ?_⟩
    intro i hi
    simp at hi
  | cons i rest ih =>
    intro acc hnd hman hacc
    obtain ⟨href, hmi⟩ := hman i (List.mem_cons_self _ _)
    have hstep : opfItemsLoop z maindir d (i :: rest) acc
        = opfItemsLoop z maindir d rest (aset acc i (resolveEntry z maindir href)) := by
      simp [opfItemsLoop, hmi]
    have hirest : i ∉ rest := (List.nodup_cons.mp hnd).1
    have hacc' : ∀ j ∈ rest, alook (aset acc i (resolveEntry z maindir href)) j = none := by
      intro j hj
      have hji : j ≠ i := fun he => hirest (he ▸ hj)
      rw [alook_aset_ne _ _ _ _ hji]
      exact hacc j (List.mem_cons_of_mem _ hj)
    obtain ⟨items, hok, hkeys, hvals⟩ := ih (aset acc i (resolveEntry z maindir href))
      (List.nodup_cons.mp hnd).2
      (fun j hj => hman j (List.mem_cons_of_mem _ hj)) hacc'
    have haset : aset acc i (resolveEntry z maindir href)
        = acc ++ [(i, resolveEntry z maindir href)] :=
      aset_of_alook_none acc i _ (hacc i (List.mem_cons_self _ _))
    refine ⟨items, by rw [hstep]; exact hok, ?_, ?_⟩
    · rw [hkeys, haset]
      simp
    · intro j hj href' hj'
      rcases List.mem_cons.mp hj with he | hjr
      · rw [he] at hj' ⊢
        rw [hmi] at hj'
        have hhref : href' = href := by
          injection hj' with hv
          exact hv.symm
        rw [hhref]
        refine opfItemsLoop_preserve z maindir d rest _ items i _ hirest ?_ hok
        exact alook_aset_self _ _ _
      · exact hvals j hjr href' hj'

/-- C8 counterexample: with the package document two directories deep, a
manifest href starting with `../` resolves to `"xc.html"` — the directory
separator is lost — so the spine entry maps to empty bytes even though the
correctly resolved target `"x/c.html"` exists in the archive. -/
theorem c8_counterexample :
    getOpfItems zC8 "x/y/content.opf" = .ok [("ch1", .bytes "")] ∧
    zRead zC8 "x/c.html" = some (.bytes "B") ∧
    mergeDir "x/y/" "../c.html" = "xc.html" ∧
    specResolve "x/y/" "../c.html" = "x/c.html" ∧
    ("xc.html" : String) ≠ "x/c.html" := by
  refine ⟨rfl, rfl, rfl, rfl, ?_⟩
  decide

/-- C8 (amended): for a parseable package document whose spine idrefs are
distinct and all resolvable in the manifest, the full read returns exactly
one entry per itemref, keyed by idref in spine order, with an absent
resolved path mapping to empty bytes; hrefs are resolved by concatenating
onto the package directory, and a leading `../` steps up one directory
correctly (agreeing with the spec's resolution) only when the package
document sits at most one directory deep — deeper, the separator is lost
(see the counterexample). -/
theorem c8_spine_items (z : Zip) (opfHref : String) (d : Opf)
    (hz : zRead z opfHref = some (.opfXml d))
    (hnd : d.spine.Nodup)
    (hman : ∀ i ∈ d.spine, ∃ href, alook d.items i = some href) :
    (∃ items, getOpfItems z opfHref = .ok items ∧
      items.map Prod.fst = d.spine ∧
      (∀ i ∈ d.spine, ∀ href, alook d.items i = some href →
        alook items i = some (resolveEntry z (upToLastSlash opfHref) href))) ∧
    (∀ fromdir rel, startsWithDotDot rel = false →
      mergeDir fromdir rel = fromdir ++ rel ∧ specResolve fromdir rel = fromdir ++ rel) ∧
    (∀ dirname rest, ('/' : Char) ∉ dirname.toList → startsWithDotDot rest = false →
      mergeDir (dirname ++ "/") ("../" ++ rest) = rest ∧
      specResolve (dirname ++ "/") ("../" ++ rest) = rest) := by
  refine ⟨?_, ?_, ?_⟩
  · have heq : getOpfItems z opfHref
        = opfItemsLoop z (upToLastSlash opfHref) d d.spine [] := by
      simp [getOpfItems, hz]
    obtain ⟨items, hok, hkeys, hvals⟩ :=
      opfItemsLoop_spec z (upToLastSlash opfHref) d d.spine [] hnd hman
        (fun i _ => rfl)
    exact ⟨items, by rw [heq]; exact hok, by simpa using hkeys, hvals⟩
  · intro fromdir rel h
    exact ⟨mergeDir_no_dotdot fromdir rel h, specResolve_no_dotdot fromdir rel h⟩
  · intro dirname rest hd hr
    exact ⟨mergeDir_single_up dirname rest hd hr, specResolve_single_up dirname rest hd hr⟩

/-- C8 witness: a two-chapter spine read in order, with the missing target
mapped to empty bytes. -/
theorem c8_witness :
    ∃ items, getOpfItems zC8w "OEBPS/content.opf" = .ok items ∧
      items.map Prod.fst = ["c1", "c2"] ∧
      alook items "c1" = some (.bytes "A") ∧
      alook items "c2" = some (.bytes "") := by
  have h := c8_spine_items zC8w "OEBPS/content.opf" opfC8w rfl (by decide)
    (by
      intro i hi
      simp only [opfC8w] at hi
      simp only [List.mem_cons, List.not_mem_nil, or_false] at hi
      rcases hi with rfl | rfl
      · exact ⟨"a.xhtml", rfl⟩
      · exact ⟨"gone.xhtml", rfl⟩)
  obtain ⟨items, hok, hkeys, hvals⟩ := h.1
  refine ⟨items, hok, hkeys, ?_, ?_⟩
  · have hv := hvals "c1" (by simp [opfC8w]) "a.xhtml" rfl
    rw [hv]
    rfl
  · have hv := hvals "c2" (by simp [opfC8w]) "gone.xhtml" rfl
    rw [hv]
    rfl

theorem imageAutoResize_ok (a b : Nat) (hb : b ≠ 0) :
    imageAutoResize a b 248 360 = .ok (248, 360) := by
  unfold imageAutoResize
  rw [if_neg hb]
  by_cases hc : a * 360 > 248 * b
  · rw [if_pos hc]
  · rw [if_neg hc, if_neg (by decide : ¬(248 = 0))]

/-- C1 counterexample: an EPUB whose package document declares Dublin-Core
title `"T"` is added as `book.epub`; the returned record's title is the
file stem `"book"`, not `"T"` — the code never reads the Dublin-Core
title. -/
theorem c1_counterexample :
    opfC1.dcTitle = some "T" ∧
    (addBook mgrC1 (some ("book.epub", DFile.zipArch zC1)) "id1").1 = .ok mdC1 ∧
    dictGet mdC1 "title" = some (.str "book") ∧
    MVal.str "book" ≠ MVal.str "T" := by
  refine ⟨rfl, rfl, rfl, ?_⟩
  decide

/-- C1 (amended): adding an EPUB file with Dublin-Core creator `A` and a
cover meta resolving to a decodable cover image returns a metadata record
with title equal to the file's stem (not the Dublin-Core title), author
`A`, status `"normal"`, progress `(0, 1)`, and a coverpath naming the
cover file saved in the book's directory, resized to 248×360. -/
theorem c1_add_book_metadata (m : Mgr) (bid n opfHref A c href : String)
    (z : Zip) (d : Opf) (w h : Nat)
    (hfs : alook m.fsBooks bid = none)
    (hext : extOf n = ".epub")
    (hopf : findOpf z = opfHref)
    (hne : opfHref ≠ "")
    (hz : zRead z opfHref = some (.opfXml d))
    (hcr : d.creator = some A) (hA : A ≠ "")
    (hcm : d.coverMeta = some c)
    (hitem : alook d.items c = some href)
    (himg : zRead z (mergeDir (upToLastSlash opfHref) href) = some (.img w h))
    (hh : h ≠ 0)
    (hsn : afterLastSlash (mergeDir (upToLastSlash opfHref) href) ≠ "metadata.yml") :
    ∃ md m', addBook m (some (n, .zipArch z)) bid = (.ok md, m') ∧
      dictGet md "title" = some (.str (stemOf n)) ∧
      dictGet md "author" = some (.str A) ∧
      dictGet md "status" = some (.str "normal") ∧
      dictGet md "progress" = some (.pair 0 1) ∧
      dictGet md "coverpath" = some (.str (bookDirPath bid ++ "/"
        ++ afterLastSlash (mergeDir (upToLastSlash opfHref) href))) ∧
      alook ((alook m'.fsBooks bid).getD [])
        (afterLastSlash (mergeDir (upToLastSlash opfHref) href))
        = some (.img 248 360) := by
  have hnm : n ≠ "metadata.yml" := by
    intro he
    rw [he] at hext
    exact absurd hext (by decide)
  have hresize : imageAutoResize w h 248 360 = .ok (248, 360) := imageAutoResize_ok w h hh
  have hinfo : getOpfInfo z opfHref = .ok (A, mergeDir (upToLastSlash opfHref) href) := by
    simp [getOpfInfo, hz, hcr, hcm, hitem, hA]
  have hsave : saveCover z (mergeDir (upToLastSlash opfHref) href) (bookDirPath bid)
      [(n, .zipArch z)]
      = (.ok (bookDirPath bid ++ "/" ++ afterLastSlash (mergeDir (upToLastSlash opfHref) href)),
         aset ([(n, .zipArch z)].filter (fun f => stemOf f.1 ≠ "cover"))
           (afterLastSlash (mergeDir (upToLastSlash opfHref) href)) (.img 248 360)) := by
    simp [saveCover, himg, hresize]
  have halook : alook [(n, DFile.zipArch z)] n = some (.zipArch z) := by
    simp [alook]
  have hmeta : readEpubMetadataD (bookDirPath bid) [(n, .zipArch z)] n
      = (.ok [("title", .str (stemOf n)), ("author", .str A),
          ("filepath", .str (bookDirPath bid ++ "/" ++ n)),
          ("coverpath", .str (bookDirPath bid ++ "/"
            ++ afterLastSlash (mergeDir (upToLastSlash opfHref) href)))],
         aset ([(n, .zipArch z)].filter (fun f => stemOf f.1 ≠ "cover"))
           (afterLastSlash (mergeDir (upToLastSlash opfHref) href)) (.img 248 360)) := by
    simp [readEpubMetadataD, halook, hopf, hne, hinfo, hsave]
  have hchild : findEpubChild [(n, DFile.zipArch z)] = some n := by
    simp [findEpubChild, hext]
  have hread : readEbook (bookDirPath bid) [(n, .zipArch z)] none true
      = (.ok (some (.meta [("title", .str (stemOf n)), ("author", .str A),
          ("filepath", .str (bookDirPath bid ++ "/" ++ n)),
          ("coverpath", .str (bookDirPath bid ++ "/"
            ++ afterLastSlash (mergeDir (upToLastSlash opfHref) href)))])),
         aset ([(n, .zipArch z)].filter (fun f => stemOf f.1 ≠ "cover"))
           (afterLastSlash (mergeDir (upToLastSlash opfHref) href)) (.img 248 360)) := by
    rw [readEbook_of_child _ _ n true hchild]
    simp [readEbookFile, hext, hmeta]
  have hb2 : alook (aset m.books bid (⟨none⟩ : BookRec)) bid = some ⟨none⟩ :=
    alook_aset_self _ _ _
  have hf2 : alook (aset m.fsBooks bid [(n, DFile.zipArch z)]) bid
      = some [(n, DFile.zipArch z)] := alook_aset_self _ _ _
  have hyml : alook [(n, DFile.zipArch z)] "metadata.yml" = none := by
    rw [alook_cons]
    rw [if_neg (by simpa using hnm)]
    rfl
  have hnone : (alook m.fsBooks bid).isSome = false := by rw [hfs]; rfl
  set m2 : Mgr := { m with
    fsBooks := aset m.fsBooks bid [(n, .zipArch z)],
    books := aset m.books bid ⟨none⟩ } with hm2
  have haddeq : addBook m (some (n, .zipArch z)) bid = getMetadataM m2 bid := by
    rw [hm2]
    simp [addBook, hnone]
  set md : Dict := dictUnion
    [("title", .str (stemOf n)), ("author", .str A),
     ("filepath", .str (bookDirPath bid ++ "/" ++ n)),
     ("coverpath", .str (bookDirPath bid ++ "/"
       ++ afterLastSlash (mergeDir (upToLastSlash opfHref) href)))]
    [("uploader", .str m.username), ("uploadtime", .str m.clock),
     ("status", .str "normal"), ("progress", .pair 0 1)] with hmd
  set files2 : DirFiles := aset
    (aset ([(n, DFile.zipArch z)].filter (fun f => stemOf f.1 ≠ "cover"))
      (afterLastSlash (mergeDir (upToLastSlash opfHref) href)) (.img 248 360))
    "metadata.yml" (.yamlDict md) with hfiles2
  have hget : getMetadataM m2 bid = (.ok md,
      { m2 with fsBooks := aset m2.fsBooks bid files2,
                books := aset m2.books bid ⟨some md⟩ }) := by
    simp [getMetadataM, hm2, hb2, hf2, hyml, hread, setFs, hmd, hfiles2]
  refine ⟨md, _, by rw [haddeq, hget], ?_, ?_, ?_, ?_, ?_, ?_⟩
  · rw [hmd, dictGet_dictUnion]
    rfl
  · rw [hmd, dictGet_dictUnion]
    rfl
  · rw [hmd, dictGet_dictUnion]
    rfl
  · rw [hmd, dictGet_dictUnion]
    rfl
  · rw [hmd, dictGet_dictUnion]
    rfl
  · have hfsl : alook (aset m2.fsBooks bid files2) bid = some files2 :=
      alook_aset_self _ _ _
    show alook ((alook (aset m2.fsBooks bid files2) bid).getD []) _ = _
    rw [hfsl]
    simp only [Option.getD_some]
    rw [hfiles2, alook_aset_ne _ _ _ _ hsn]
    exact alook_aset_self _ _ _

/-- C1 witness: the amended theorem at the concrete EPUB `zC1`. -/
theorem c1_witness :
    ∃ md m', addBook mgrC1 (some ("book.epub", DFile.zipArch zC1)) "id1" = (.ok md, m') ∧
      dictGet md "title" = some (.str (stemOf "book.epub")) ∧
      dictGet md "author" = some (.str "A") ∧
      dictGet md "status" = some (.str "normal") ∧
      dictGet md "progress" = some (.pair 0 1) ∧
      dictGet md "coverpath" = some (.str (bookDirPath "id1" ++ "/"
        ++ afterLastSlash (mergeDir (upToLastSlash "OEBPS/content.opf") "cover.jpg"))) ∧
      alook ((alook m'.fsBooks "id1").getD [])
        (afterLastSlash (mergeDir (upToLastSlash "OEBPS/content.opf") "cover.jpg"))
        = some (.img 248 360) :=
  c1_add_book_metadata mgrC1 "id1" "book.epub" "OEBPS/content.opf" "A" "cov" "cover.jpg"
    zC1 opfC1 600 800 rfl rfl rfl (by decide) rfl rfl (by decide) rfl rfl rfl
    (by decide) (by decide)

end ReadPub
